import Mathlib

/-!
Shallow embedding of the core of the `voice-to-dwg` repository:

* `src/backend/file_cache.py` — `InMemoryFileCache`, an in-memory LRU cache
  with dual eviction limits (item count and total bytes);
* `src/backend/dwg_processor.py` — the parameter normalizer
  (`_parse_number`, `_ensure_dimensions`) and the geometry engine
  (`_add_element_to_drawing`, the drawing part of `generate_dwg`).

Python `bytes` values are modelled as `List Nat` (only identity and length
matter to the code); Python floats as `ℚ` (all arithmetic performed by the
code on the modelled paths is exact on decimals); `OrderedDict` as a list of
entries in insertion order, least-recently-used first, most-recently-used
last, with the keys pairwise distinct (an invariant of every reachable
state, proved below).  Metadata dictionaries are modelled by a type
parameter `μ`; the time-dependent default metadata constructed by `set` is
passed in explicitly (explicit state passing for the clock).
-/

/-! ### The cache: `src/backend/file_cache.py` -/

/-- State of `InMemoryFileCache`: `max_items`, `max_bytes`, `current_bytes`
and the ordered dict `_cache` (field `cache` here), key → (bytes, metadata),
oldest first.  `current_bytes` is a Python `int`, hence `Int`. -/
structure InMemoryFileCache (μ : Type) where
  max_items : Nat
  max_bytes : Nat
  current_bytes : Int
  cache : List (String × List Nat × μ)
deriving Repr, DecidableEq

namespace InMemoryFileCache

variable {μ : Type}

/-- Source `__init__`: empty cache with the given limits. -/
def init (max_items max_bytes : Nat) : InMemoryFileCache μ :=
  ⟨max_items, max_bytes, 0, []⟩

/-- Sum of `len(data)` over the stored entries. -/
def sumBytes (l : List (String × List Nat × μ)) : Int :=
  (l.map (fun e => (e.2.1.length : Int))).sum

/-- One lookup in the ordered dict (`key in self._cache` / `self._cache.get(key)`). -/
def findEntry (c : InMemoryFileCache μ) (key : String) : Option (String × List Nat × μ) :=
  c.cache.find? (fun e => e.1 == key)

/-- The loop body condition of `_evict_if_needed`:
`(len(self._cache) > self.max_items) or (self.current_bytes > self.max_bytes)`. -/
def evictCond (c : InMemoryFileCache μ) : Prop :=
  c.cache.length > c.max_items ∨ c.current_bytes > (c.max_bytes : Int)

instance (c : InMemoryFileCache μ) : Decidable c.evictCond := by
  unfold evictCond; infer_instance

/-- The `while` loop of `_evict_if_needed`, fuel-indexed: each iteration pops
the least-recently-used (first) entry, so `cache.length` iterations always
suffice.  On an empty dict with the condition still true the Python code
would raise `KeyError` from `popitem`; that situation is unreachable from
any state whose byte accounting is exact (proved below), and the model
returns the state unchanged there. -/
def evictGo : Nat → InMemoryFileCache μ → InMemoryFileCache μ
  | 0, c => c
  | n + 1, c =>
    if c.evictCond then
      match c.cache with
      | [] => c
      | (_, data, _) :: rest =>
          evictGo n { c with cache := rest, current_bytes := c.current_bytes - data.length }
    else c

/-- Source `_evict_if_needed`. -/
def evict_if_needed (c : InMemoryFileCache μ) : InMemoryFileCache μ :=
  evictGo c.cache.length c

/-- The state of `set(key, data, metadata)` just before `_evict_if_needed`
runs: any old entry under `key` removed with its byte count
(`del self._cache[key]` removes the single entry under the key; with
pairwise-distinct keys this is the same as filtering), then the new entry
appended at the most-recently-used end and its length added.
`self._cache.move_to_end(key, last=True)` is a no-op because the entry was
just inserted at the end. -/
def setPre (c : InMemoryFileCache μ) (key : String) (data : List Nat)
    (m : μ) : InMemoryFileCache μ :=
  let c1 :=
    match c.findEntry key with
    | some e =>
        { c with current_bytes := c.current_bytes - e.2.1.length,
                 cache := c.cache.filter (fun x => !(x.1 == key)) }
    | none => c
  { c1 with cache := c1.cache ++ [(key, data, m)],
            current_bytes := c1.current_bytes + data.length }

/-- Source `set(key, data, metadata)`: replace-then-insert, then run eviction.
`metadata or {...}` is modelled by `metadata.getD defaultMeta`, with
`defaultMeta` the caller-supplied stand-in for the time-stamped default
dict built at call time. -/
def set (c : InMemoryFileCache μ) (key : String) (data : List Nat)
    (metadata : Option μ) (defaultMeta : μ) : InMemoryFileCache μ :=
  (c.setPre key data (metadata.getD defaultMeta)).evict_if_needed

/-- Source `get(key)`: `None` on a miss; on a hit, `move_to_end` (promotion to
most-recently-used) and return the data.  Returns the value together with
the successor state. -/
def get (c : InMemoryFileCache μ) (key : String) :
    Option (List Nat) × InMemoryFileCache μ :=
  match c.findEntry key with
  | none => (none, c)
  | some e =>
      (some e.2.1, { c with cache := c.cache.filter (fun x => !(x.1 == key)) ++ [e] })

/-- Source `get_metadata(key)`: lookup only, no `move_to_end`; the state is returned
unchanged, mirroring that the Python method performs no mutation. -/
def get_metadata (c : InMemoryFileCache μ) (key : String) :
    Option μ × InMemoryFileCache μ :=
  match c.findEntry key with
  | none => (none, c)
  | some e => (some e.2.2, c)

/-- Source `list_keys()`: all keys, most-recently-used first (`reversed(self._cache.keys())`). -/
def list_keys (c : InMemoryFileCache μ) : List String :=
  (c.cache.map (fun e => e.1)).reverse

/-- Source `delete(key)`: pop the entry if present, decrement the byte count,
report whether anything was removed. -/
def delete (c : InMemoryFileCache μ) (key : String) : Bool × InMemoryFileCache μ :=
  match c.findEntry key with
  | none => (false, c)
  | some e =>
      (true, { c with current_bytes := c.current_bytes - e.2.1.length,
                      cache := c.cache.filter (fun x => !(x.1 == key)) })

/-- Source `clear()`. -/
def clear (c : InMemoryFileCache μ) : InMemoryFileCache μ :=
  { c with cache := [], current_bytes := 0 }

/-- One public cache operation, for reasoning about interleaved sequences. -/
inductive Op (μ : Type) where
  | set (key : String) (data : List Nat) (metadata : Option μ) (defaultMeta : μ)
  | get (key : String)
  | getMetadata (key : String)
  | listKeys
  | delete (key : String)
  | clear
deriving Repr

/-- State effect of one operation (results discarded). -/
def applyOp (c : InMemoryFileCache μ) : Op μ → InMemoryFileCache μ
  | .set key data metadata defaultMeta => c.set key data metadata defaultMeta
  | .get key => (c.get key).2
  | .getMetadata key => (c.get_metadata key).2
  | .listKeys => c
  | .delete key => (c.delete key).2
  | .clear => c.clear

/-- One `set` call with its arguments, for reasoning about insertion
sequences. -/
structure SetCall (μ : Type) where
  key : String
  data : List Nat
  metadata : Option μ
  defaultMeta : μ

/-- Apply one `set` call. -/
def doSet (c : InMemoryFileCache μ) (sc : SetCall μ) : InMemoryFileCache μ :=
  c.set sc.key sc.data sc.metadata sc.defaultMeta

/-- Reachable-state invariant: the byte counter is the exact sum of the
stored data lengths, and keys are pairwise distinct. -/
def GoodState (c : InMemoryFileCache μ) : Prop :=
  c.current_bytes = sumBytes c.cache ∧ (c.cache.map (fun e => e.1)).Nodup

end InMemoryFileCache

/-! ### Loose Python values, `src/backend/dwg_processor.py` -/

/-- A loosely typed Python value as met by `_parse_number` and
`float(...)`: a number (`int`/`float`, exact on the modelled inputs), a
string, `None`, or any other object. -/
inductive PyVal where
  | num (q : ℚ)
  | str (s : String)
  | noneV
  | other
deriving Repr, DecidableEq

/-- Numeric value of a list of decimal digit characters. -/
def digitsNat (ds : List Char) : Nat :=
  ds.foldl (fun a c => 10 * a + (c.toNat - 48)) 0

/-- Exact value of a decimal literal: sign, integer digits, fraction digits
(`float` applied to a matched decimal form is exact on these inputs). -/
def decVal (neg : Bool) (intDs fracDs : List Char) : ℚ :=
  let mag : ℚ := (digitsNat intDs : ℚ) + (digitsNat fracDs : ℚ) / (10 : ℚ) ^ fracDs.length
  if neg then -mag else mag

/-- One attempt of the regex `-?\d+(\.\d+)?` anchored at the head of the
character list: an optional minus sign, one or more digits taken greedily,
then optionally a dot followed by one or more digits taken greedily (a dot
with no digit after it is left unmatched, as the optional group fails). -/
def matchNumAt (cs : List Char) : Option ℚ :=
  let p :=
    match cs with
    | '-' :: r => (true, r)
    | _ => (false, cs)
  let intDs := p.2.takeWhile Char.isDigit
  if intDs.isEmpty then none
  else
    let rest2 := p.2.dropWhile Char.isDigit
    let fracDs :=
      match rest2 with
      | '.' :: r2 => r2.takeWhile Char.isDigit
      | _ => []
    some (decVal p.1 intDs fracDs)

/-- Source `re.search(r\x27(-?\d+(\.\d+)?)\x27, v)`: leftmost match wins. -/
def searchNum : List Char → Option ℚ
  | [] => none
  | c :: cs =>
    match matchNumAt (c :: cs) with
    | some q => some q
    | none => searchNum cs

/-- Source `_parse_number`: `None` for `None` and non-numeric non-string values,
direct conversion for numbers, first regex match for strings
(`float(m.group(1))` cannot fail on a matched form). -/
def parse_number (v : PyVal) : Option ℚ :=
  match v with
  | .noneV => none
  | .num q => some q
  | .str s => searchNum s.toList
  | .other => none

/-- The Python builtin `float` on the modelled values: numbers convert
directly; a string must be, after stripping surrounding spaces, an optional
sign followed by digits with an optional fractional part (exponent,
infinity, nan and underscore forms are not modelled — the repository only
meets plain decimals on this path); `None` and other objects raise. -/
def pyFloatStr (s : String) : Option ℚ :=
  let cs := ((s.toList.dropWhile (fun c => c == ' ')).reverse.dropWhile
      (fun c => c == ' ')).reverse
  let p :=
    match cs with
    | '-' :: r => (true, r)
    | '+' :: r => (false, r)
    | _ => (false, cs)
  let intDs := p.2.takeWhile Char.isDigit
  let rest2 := p.2.dropWhile Char.isDigit
  let ok :=
    match rest2 with
    | [] => !intDs.isEmpty
    | '.' :: r2 => (!intDs.isEmpty || !r2.isEmpty) && r2.all Char.isDigit
    | _ => false
  if ok then
    let fracDs := match rest2 with | '.' :: r2 => r2 | _ => []
    some (decVal p.1 intDs fracDs)
  else none

/-- Source `float(v)` as an optional result (`none` models the raised
`TypeError`/`ValueError`). -/
def pyFloat : PyVal → Option ℚ
  | .num q => some q
  | .str s => pyFloatStr s
  | .noneV => none
  | .other => none

/-- Python `x or d` for an optional string: `None` and `""` are falsy. -/
def pyOrStr (v : Option String) (d : String) : String :=
  match v with
  | none => d
  | some s => if s = "" then d else s

/-- Worker for `str.title()`: the flag records whether the previous
character was alphabetic. -/
def pyTitleGo : Bool → List Char → List Char
  | _, [] => []
  | prevAlpha, c :: cs =>
    if c.isAlpha then
      (if prevAlpha then c.toLower else c.toUpper) :: pyTitleGo true cs
    else
      c :: pyTitleGo false cs

/-- Python `str.title()` restricted to ASCII strings. -/
def pyTitle (s : String) : String := String.mk (pyTitleGo false s.toList)

/-- Python `str.lower()` restricted to ASCII strings. -/
def pyLower (s : String) : String := String.mk (s.toList.map Char.toLower)

/-- Python float formatting for the values the pipeline produces: an
integral value prints as `n.0`; a value whose denominator divides a power
of ten prints its exact decimal digits; anything else falls back to a
fraction (never reached by the modelled inputs, and no claim inspects it). -/
def pyFloatRepr (q : ℚ) : String :=
  let sign := if q < 0 then "-" else ""
  let n := q.num.natAbs
  let d := q.den
  if d = 1 then sign ++ toString n ++ ".0"
  else
    match (List.range 30).find? (fun k => 10 ^ (k + 1) % d = 0) with
    | some k0 =>
        let k := k0 + 1
        let scaled := n * 10 ^ k / d
        let ip := scaled / 10 ^ k
        let fr := scaled % 10 ^ k
        let frDigits := (toString (fr + 10 ^ k)).toList.drop 1
        let trimmed := (frDigits.reverse.dropWhile (fun c => c == '0')).reverse
        let trimmed2 := if trimmed.isEmpty then ['0'] else trimmed
        sign ++ toString ip ++ "." ++ String.mk trimmed2
    | none => sign ++ toString n ++ "/" ++ toString d

/-! ### The loose parameter bag -/

/-- The `size` sub-dict of an element: each field is the stored value when
the key is present.  A missing `width` key makes `size[...]` raise. -/
structure LooseSize where
  width : Option PyVal
  height : Option PyVal
deriving Repr, DecidableEq

/-- One element of `parameters[\x27elements\x27]`.  `type?` models
`element[\x27type\x27]` (raises `KeyError` when absent); `position` models
`element.get(\x27position\x27, \x27north\x27)`; non-string kind or position
values compare unequal to every string literal in the source and so behave
exactly like unknown strings, hence strings suffice. -/
structure LooseElement where
  type? : Option String
  position : Option String
  size : Option LooseSize
deriving Repr, DecidableEq

/-- The `dimensions` sub-dict. -/
structure LooseDims where
  length : Option PyVal
  width : Option PyVal
  unit : Option String
deriving Repr, DecidableEq

/-- The whole loose parameter bag as consumed by `_ensure_dimensions` and
`generate_dwg`. -/
structure LooseParams where
  room_type : Option String
  dimensions : Option LooseDims
  elements : List LooseElement
deriving Repr, DecidableEq

/-- The per-room-type default table of `_ensure_dimensions`
(`defaults.get(room_type, ...)` returns `none` for keys outside the
table). -/
def dimension_defaults (rt : String) : Option (ℚ × ℚ × String) :=
  if rt = "kitchen" then some (12, 10, "feet")
  else if rt = "bedroom" then some (15, 12, "feet")
  else if rt = "living room" then some (16, 14, "feet")
  else if rt = "living_room" then some (16, 14, "feet")
  else if rt = "office" then some (12, 10, "feet")
  else if rt = "bathroom" then some (8, 6, "feet")
  else if rt = "room" then some (10, 10, "feet")
  else none

/-- The normalized result of `_ensure_dimensions`. -/
structure RoomDims where
  length : ℚ
  width : ℚ
  unit : String
deriving Repr, DecidableEq

/-- The normalized room-type key `_ensure_dimensions` looks up:
`(parameters.get("room_type") or "").lower()` with the empty fallback to
`"room"`. -/
def normRoomType (p : LooseParams) : String :=
  let r := pyLower (pyOrStr p.room_type "")
  if r = "" then "room" else r

/-- Source `defaults.get(room_type, defaults["room"])`. -/
def chosenDefaults (p : LooseParams) : ℚ × ℚ × String :=
  (dimension_defaults (normRoomType p)).getD (10, 10, "feet")

/-- Source `_ensure_dimensions`: lower-case and default the room type, parse each
axis independently, replace an unparsable axis by its room-type default
(generic `room` default for unknown types), then reject non-positive
dimensions.  The `unit = unit or chosen[2]` reassignment of the source is
kept although `unit` is never falsy at that point. -/
def ensure_dimensions (parameters : LooseParams) : Except String RoomDims :=
  let dims := parameters.dimensions.getD ⟨none, none, none⟩
  let unit := pyOrStr dims.unit "feet"
  let length? := parse_number (dims.length.getD .noneV)
  let width? := parse_number (dims.width.getD .noneV)
  let chosen := chosenDefaults parameters
  let length := length?.getD chosen.1
  let width := width?.getD chosen.2.1
  let unit := if length?.isNone || width?.isNone then
      (if unit = "" then chosen.2.2 else unit) else unit
  if length ≤ 0 ∨ width ≤ 0 then
    .error ("Invalid room dimensions: length=" ++ pyFloatRepr length ++
      ", width=" ++ pyFloatRepr width)
  else
    .ok ⟨length, width, unit⟩

/-- The resolved length in the sense of the spec: the parsed value when the
raw length parses, otherwise the room-type default for the length axis. -/
def resolvedLength (p : LooseParams) : ℚ :=
  (parse_number ((p.dimensions.getD ⟨none, none, none⟩).length.getD .noneV)).getD
    (chosenDefaults p).1

/-- The resolved width in the sense of the spec. -/
def resolvedWidth (p : LooseParams) : ℚ :=
  (parse_number ((p.dimensions.getD ⟨none, none, none⟩).width.getD .noneV)).getD
    (chosenDefaults p).2.1

/-! ### The geometry engine -/

/-- One emitted drawing primitive (an `msp.add_*` call).  Text carries the
dxf attributes the source sets: height, insertion point, horizontal and
vertical alignment (0 when unset) and rotation (0 when unset). -/
inductive Primitive where
  | polyline (points : List (ℚ × ℚ)) (closed : Bool)
  | line (p1 p2 : ℚ × ℚ)
  | arc (center : ℚ × ℚ) (radius start_angle end_angle : ℚ)
  | text (content : String) (height : ℚ) (insert : ℚ × ℚ)
      (halign valign : Nat) (rotation : ℚ)
deriving Repr, DecidableEq

/-- The width extraction of `_add_element_to_drawing`:
`size = element.get(\x27size\x27, {\x27width\x27: 3, \x27height\x27: 1})`
followed by `float(size[\x27width\x27])`.  `Except.error ()` models the
raised `KeyError` (width key absent) or `TypeError`/`ValueError` (value not
convertible). -/
def elementWidthOf (element : LooseElement) : Except Unit ℚ :=
  let size := element.size.getD ⟨some (.num 3), some (.num 1)⟩
  match size.width with
  | none => .error ()
  | some v =>
    match pyFloat v with
    | some q => .ok q
    | none => .error ()

/-- Source `_add_element_to_drawing`: dispatch on `(kind, position)` exactly in the
branch order of the source.  Doors: east/right, west/left, north/front,
catch-all south/back.  Windows: north/front, south/back, east/right,
west/left, no catch-all.  Unknown kinds emit nothing.  An exception
(missing kind key, missing or unconvertible width) is `Except.error ()`. -/
def add_element_to_drawing (element : LooseElement) (room_length room_width : ℚ) :
    Except Unit (List Primitive) := do
  let element_type ←
    match element.type? with
    | some t => Except.ok t
    | none => Except.error ()
  let position := element.position.getD "north"
  let element_width ← elementWidthOf element
  if element_type = "door" then
    if position = "east" ∨ position = "right" then
      let door_y := room_width / 2 - element_width / 2
      pure [.line (room_length, door_y) (room_length, door_y + element_width),
            .arc (room_length, door_y) element_width 180 270,
            .text "DOOR" (1 / 2) (room_length - 1, door_y + element_width / 2) 0 0 0]
    else if position = "west" ∨ position = "left" then
      let door_y := room_width / 2 - element_width / 2
      pure [.line (0, door_y) (0, door_y + element_width),
            .arc (0, door_y + element_width) element_width 0 90,
            .text "DOOR" (1 / 2) (1, door_y + element_width / 2) 0 0 0]
    else if position = "north" ∨ position = "front" then
      let door_x := room_length / 2 - element_width / 2
      pure [.line (door_x, room_width) (door_x + element_width, room_width),
            .arc (door_x, room_width) element_width 270 360,
            .text "DOOR" (1 / 2) (door_x + element_width / 2, room_width - 1) 0 0 0]
    else
      let door_x := room_length / 2 - element_width / 2
      pure [.line (door_x, 0) (door_x + element_width, 0),
            .arc (door_x + element_width, 0) element_width 90 180,
            .text "DOOR" (1 / 2) (door_x + element_width / 2, 1) 0 0 0]
  else if element_type = "window" then
    if position = "north" ∨ position = "front" then
      let window_x := room_length / 2 - element_width / 2
      pure [.line (window_x, room_width) (window_x + element_width, room_width),
            .line (window_x, room_width - 1 / 5) (window_x + element_width, room_width - 1 / 5),
            .text "WINDOW" (3 / 10) (window_x + element_width / 2, room_width - 1 / 2) 0 0 0]
    else if position = "south" ∨ position = "back" then
      let window_x := room_length / 2 - element_width / 2
      pure [.line (window_x, 0) (window_x + element_width, 0),
            .line (window_x, 1 / 5) (window_x + element_width, 1 / 5),
            .text "WINDOW" (3 / 10) (window_x + element_width / 2, 1 / 2) 0 0 0]
    else if position = "east" ∨ position = "right" then
      let window_y := room_width / 2 - element_width / 2
      pure [.line (room_length, window_y) (room_length, window_y + element_width),
            .line (room_length - 1 / 5, window_y) (room_length - 1 / 5, window_y + element_width),
            .text "WINDOW" (3 / 10) (room_length - 1 / 2, window_y + element_width / 2) 0 0 90]
    else if position = "west" ∨ position = "left" then
      pure [.line (0, room_width / 2 - element_width / 2) (0, room_width / 2 - element_width / 2 + element_width),
            .line (1 / 5, room_width / 2 - element_width / 2) (1 / 5, room_width / 2 - element_width / 2 + element_width),
            .text "WINDOW" (3 / 10) (1 / 2, room_width / 2 - element_width / 2 + element_width / 2) 0 0 90]
    else
      pure []
  else
    pure []

/-- The boundary polyline of `generate_dwg`. -/
def boundaryOf (length width : ℚ) : Primitive :=
  .polyline [(0, 0), (length, 0), (length, width), (0, width), (0, 0)] true

/-- The centered room label of `generate_dwg`:
`f"\x7broom_label\x7d\n\x7blength\x7d\x27 x \x7bwidth\x7d\x27"` with height
1, insertion at the room center, centered both ways. -/
def roomLabelOf (parameters : LooseParams) (length width : ℚ) : Primitive :=
  .text (pyTitle (pyOrStr parameters.room_type "Room") ++ "\n" ++
      pyFloatRepr length ++ "\x27 x " ++ pyFloatRepr width ++ "\x27")
    1 (length / 2, width / 2) 1 1 0

/-- The drawing portion of `generate_dwg`: normalize dimensions (an invalid
room aborts), emit the boundary polyline and the centered room label, then
each element in input order under the per-element try/except — a failing
element contributes no primitives and generation continues.  The DXF text
serialization, the uuid filename and the cache insertion that follow in the
source are I/O plumbing outside this model. -/
def generate_dwg (parameters : LooseParams) : Except String (List Primitive) := do
  let dims ← ensure_dimensions parameters
  let length := dims.length
  let width := dims.width
  let elementPrims :=
    (parameters.elements.map (fun e =>
      match add_element_to_drawing e length width with
      | .ok ps => ps
      | .error _ => [])).flatten
  pure (boundaryOf length width :: roomLabelOf parameters length width :: elementPrims)

/-! ### Cache lemmas -/

namespace InMemoryFileCache

variable {μ : Type}

theorem sumBytes_nil : sumBytes ([] : List (String × List Nat × μ)) = 0 := rfl

theorem sumBytes_cons (e : String × List Nat × μ) (l : List (String × List Nat × μ)) :
    sumBytes (e :: l) = e.2.1.length + sumBytes l := by
  simp [sumBytes]

theorem sumBytes_append (l₁ l₂ : List (String × List Nat × μ)) :
    sumBytes (l₁ ++ l₂) = sumBytes l₁ + sumBytes l₂ := by
  simp [sumBytes]

theorem sumBytes_nonneg (l : List (String × List Nat × μ)) : 0 ≤ sumBytes l := by
  induction l with
  | nil => simp [sumBytes]
  | cons e t ih => rw [sumBytes_cons]; positivity

/-- Source `evictGo` touches only `cache` and `current_bytes`. -/
theorem evictGo_max_fields (n : Nat) (c : InMemoryFileCache μ) :
    (evictGo n c).max_items = c.max_items ∧ (evictGo n c).max_bytes = c.max_bytes := by
  induction n generalizing c with
  | zero => exact ⟨rfl, rfl⟩
  | succ n ih =>
    rw [evictGo]
    by_cases h : c.evictCond
    · rw [if_pos h]
      cases hc : c.cache with
      | nil => exact ⟨rfl, rfl⟩
      | cons e rest => exact ih _
    · rw [if_neg h]; exact ⟨rfl, rfl⟩

theorem evict_if_needed_max_fields (c : InMemoryFileCache μ) :
    (c.evict_if_needed).max_items = c.max_items ∧
      (c.evict_if_needed).max_bytes = c.max_bytes :=
  evictGo_max_fields _ c

/-- Eviction never re-inserts or reorders: the surviving entries are a
suffix of the original entry list (only oldest-first removals happen). -/
theorem evictGo_suffix (n : Nat) (c : InMemoryFileCache μ) :
    (evictGo n c).cache.IsSuffix c.cache := by
  induction n generalizing c with
  | zero => exact List.suffix_refl _
  | succ n ih =>
    obtain ⟨mi, mb, cb, entries⟩ := c
    rw [evictGo]
    by_cases h : evictCond ⟨mi, mb, cb, entries⟩
    · rw [if_pos h]
      cases entries with
      | nil => exact List.suffix_refl _
      | cons e rest => exact (ih _).trans (List.suffix_cons e rest)
    · rw [if_neg h]

theorem evict_if_needed_suffix (c : InMemoryFileCache μ) :
    (c.evict_if_needed).cache.IsSuffix c.cache :=
  evictGo_suffix _ c

/-- Eviction preserves exact byte accounting. -/
theorem evictGo_sum (n : Nat) (c : InMemoryFileCache μ)
    (h : c.current_bytes = sumBytes c.cache) :
    (evictGo n c).current_bytes = sumBytes (evictGo n c).cache := by
  induction n generalizing c with
  | zero => exact h
  | succ n ih =>
    rw [evictGo]
    by_cases hc : c.evictCond
    · rw [if_pos hc]
      cases hcc : c.cache with
      | nil => exact h
      | cons e rest =>
        refine ih _ ?_
        simp only []
        rw [h, hcc, sumBytes_cons]
        ring
    · rw [if_neg hc]; exact h

/-- With exact byte accounting and enough fuel, eviction establishes both
limits: the loop only stops when its condition is false, and it cannot run
out of entries while the condition still holds. -/
theorem evictGo_bounds (n : Nat) (c : InMemoryFileCache μ)
    (hsum : c.current_bytes = sumBytes c.cache) (hn : c.cache.length ≤ n) :
    (evictGo n c).cache.length ≤ (evictGo n c).max_items ∧
      (evictGo n c).current_bytes ≤ ((evictGo n c).max_bytes : Int) := by
  induction n generalizing c with
  | zero =>
    have h0 : c.cache = [] := List.length_eq_zero.mp (Nat.le_zero.mp hn)
    constructor
    · simp [evictGo, h0]
    · simp only [evictGo, hsum, h0, sumBytes_nil]
      exact Int.natCast_nonneg _
  | succ n ih =>
    rw [evictGo]
    by_cases hc : c.evictCond
    · rw [if_pos hc]
      cases hcc : c.cache with
      | nil =>
        exfalso
        rcases hc with hlen | hbytes
        · rw [hcc] at hlen; simp at hlen
        · rw [hsum, hcc, sumBytes_nil] at hbytes
          omega
      | cons e rest =>
        refine ih _ ?_ ?_
        · simp only []
          rw [hsum, hcc, sumBytes_cons]
          ring
        · have hlen : c.cache.length = rest.length + 1 := by rw [hcc]; simp
          simp only []
          omega
    · rw [if_neg hc]
      rw [evictCond] at hc
      push_neg at hc
      exact hc

theorem evict_if_needed_sum (c : InMemoryFileCache μ)
    (h : c.current_bytes = sumBytes c.cache) :
    (c.evict_if_needed).current_bytes = sumBytes (c.evict_if_needed).cache :=
  evictGo_sum _ c h

theorem evict_if_needed_bounds (c : InMemoryFileCache μ)
    (hsum : c.current_bytes = sumBytes c.cache) :
    (c.evict_if_needed).cache.length ≤ c.max_items ∧
      (c.evict_if_needed).current_bytes ≤ (c.max_bytes : Int) := by
  have h := evictGo_bounds c.cache.length c hsum le_rfl
  have hf := evictGo_max_fields c.cache.length c
  rw [evict_if_needed]
  exact ⟨hf.1 ▸ h.1, hf.2 ▸ h.2⟩

/-- Entries surviving eviction are a sublist, so key distinctness survives. -/
theorem evict_if_needed_nodup (c : InMemoryFileCache μ)
    (h : (c.cache.map (fun e => e.1)).Nodup) :
    ((c.evict_if_needed).cache.map (fun e => e.1)).Nodup :=
  h.sublist ((evict_if_needed_suffix c).sublist.map _)

theorem evict_if_needed_good (c : InMemoryFileCache μ) (h : c.GoodState) :
    (c.evict_if_needed).GoodState :=
  ⟨evict_if_needed_sum c h.1, evict_if_needed_nodup c h.2⟩

/-- A key is never among the keys of the entries filtered away from it. -/
theorem not_mem_filter_keys (l : List (String × List Nat × μ)) (k : String) :
    k ∉ (l.filter (fun x => !(x.1 == k))).map (fun x => x.1) := by
  intro hmem
  rcases List.mem_map.mp hmem with ⟨x, hx, hxk⟩
  have := List.of_mem_filter hx
  simp [hxk] at this

/-- Filtering away an absent key is the identity. -/
theorem filter_ne_of_not_mem (l : List (String × List Nat × μ)) (k : String)
    (h : k ∉ l.map (fun e => e.1)) :
    l.filter (fun x => !(x.1 == k)) = l := by
  induction l with
  | nil => rfl
  | cons e t ih =>
    simp only [List.map_cons, List.mem_cons] at h
    push_neg at h
    rw [List.filter_cons_of_pos (by simp [Ne.symm h.1]), ih h.2]

/-- With pairwise-distinct keys, removing the found entry removes exactly
its bytes from the sum. -/
theorem sumBytes_filter_of_find? (l : List (String × List Nat × μ)) (k : String)
    (e : String × List Nat × μ)
    (hnd : (l.map (fun x => x.1)).Nodup)
    (hf : l.find? (fun x => x.1 == k) = some e) :
    sumBytes (l.filter (fun x => !(x.1 == k))) = sumBytes l - e.2.1.length := by
  induction l with
  | nil => simp at hf
  | cons a t ih =>
    simp only [List.map_cons, List.nodup_cons] at hnd
    rw [List.find?_cons] at hf
    by_cases hk : a.1 = k
    · have hbeq : (a.1 == k) = true := by simp [hk]
      rw [hbeq] at hf
      have he : a = e := by simpa using hf
      subst he
      rw [List.filter_cons_of_neg (by simp [hk]), sumBytes_cons,
        filter_ne_of_not_mem t k (hk ▸ hnd.1)]
      ring
    · have hbeq : (a.1 == k) = false := by simp [hk]
      rw [hbeq] at hf
      rw [List.filter_cons_of_pos (by simp [hk]), sumBytes_cons, sumBytes_cons,
        ih hnd.2 hf]
      ring

/-- The entry found under a key bears that key. -/
theorem findEntry_key (c : InMemoryFileCache μ) (k : String)
    (e : String × List Nat × μ) (hf : c.findEntry k = some e) : e.1 = k := by
  have := List.find?_some hf
  simpa using this

/-- A found entry is a stored entry. -/
theorem findEntry_mem (c : InMemoryFileCache μ) (k : String)
    (e : String × List Nat × μ) (hf : c.findEntry k = some e) : e ∈ c.cache :=
  List.mem_of_find?_eq_some hf

/-- A failed lookup means the key is absent. -/
theorem findEntry_none (c : InMemoryFileCache μ) (k : String)
    (hf : c.findEntry k = none) : k ∉ c.cache.map (fun e => e.1) := by
  intro hmem
  rcases List.mem_map.mp hmem with ⟨x, hx, hxk⟩
  have := List.find?_eq_none.mp hf x hx
  simp [hxk] at this

/-- Distinct keys survive a filter. -/
theorem nodup_filter_keys (l : List (String × List Nat × μ)) (k : String)
    (h : (l.map (fun x => x.1)).Nodup) :
    ((l.filter (fun x => !(x.1 == k))).map (fun x => x.1)).Nodup :=
  h.sublist ((List.filter_sublist l).map _)

/-- Source `setPre` keeps byte accounting exact and keys distinct. -/
theorem setPre_good (c : InMemoryFileCache μ) (k : String) (d : List Nat) (m : μ)
    (h : c.GoodState) : (c.setPre k d m).GoodState := by
  obtain ⟨hsum, hnd⟩ := h
  rw [setPre]
  cases hf : c.findEntry k with
  | none =>
    constructor
    · simp only [sumBytes_append, sumBytes_cons, sumBytes_nil, hsum]
      ring
    · have hk := findEntry_none c k hf
      simp only [List.map_append, List.map_cons, List.map_nil]
      rw [List.nodup_append]
      exact ⟨hnd, List.nodup_singleton _, List.disjoint_singleton.mpr hk⟩
  | some e =>
    constructor
    · simp only [sumBytes_append, sumBytes_cons, sumBytes_nil, hsum,
        sumBytes_filter_of_find? c.cache k e hnd hf]
      ring
    · have hk := not_mem_filter_keys c.cache k
      simp only [List.map_append, List.map_cons, List.map_nil]
      rw [List.nodup_append]
      exact ⟨nodup_filter_keys c.cache k hnd, List.nodup_singleton _,
        List.disjoint_singleton.mpr hk⟩

theorem setPre_max_fields (c : InMemoryFileCache μ) (k : String) (d : List Nat) (m : μ) :
    (c.setPre k d m).max_items = c.max_items ∧ (c.setPre k d m).max_bytes = c.max_bytes := by
  rw [setPre]
  cases c.findEntry k <;> exact ⟨rfl, rfl⟩

theorem set_good (c : InMemoryFileCache μ) (k : String) (d : List Nat)
    (md : Option μ) (dm : μ) (h : c.GoodState) : (c.set k d md dm).GoodState :=
  evict_if_needed_good _ (setPre_good c k d _ h)

/-- After any `set` from a reachable state, both limits hold. -/
theorem set_bounds (c : InMemoryFileCache μ) (k : String) (d : List Nat)
    (md : Option μ) (dm : μ) (h : c.GoodState) :
    (c.set k d md dm).cache.length ≤ c.max_items ∧
      (c.set k d md dm).current_bytes ≤ (c.max_bytes : Int) := by
  have hg := setPre_good c k d (md.getD dm) h
  have hb := evict_if_needed_bounds _ hg.1
  have hf := setPre_max_fields c k d (md.getD dm)
  rw [set]
  exact ⟨hf.1 ▸ hb.1, hf.2 ▸ hb.2⟩

theorem get_good (c : InMemoryFileCache μ) (k : String) (h : c.GoodState) :
    ((c.get k).2).GoodState := by
  obtain ⟨hsum, hnd⟩ := h
  rw [get]
  cases hf : c.findEntry k with
  | none => exact ⟨hsum, hnd⟩
  | some e =>
    constructor
    · simp only [sumBytes_append, sumBytes_cons, sumBytes_nil, hsum,
        sumBytes_filter_of_find? c.cache k e hnd hf]
      have he : e ∈ c.cache := findEntry_mem c k e hf
      ring
    · have hk := not_mem_filter_keys c.cache k
      simp only [List.map_append, List.map_cons, List.map_nil]
      rw [List.nodup_append]
      refine ⟨nodup_filter_keys c.cache k hnd, List.nodup_singleton _, ?_⟩
      have hek : e.1 = k := findEntry_key c k e hf
      rw [hek]
      exact List.disjoint_singleton.mpr hk

theorem get_metadata_state (c : InMemoryFileCache μ) (k : String) :
    (c.get_metadata k).2 = c := by
  rw [get_metadata]
  cases c.findEntry k <;> rfl

theorem delete_good (c : InMemoryFileCache μ) (k : String) (h : c.GoodState) :
    ((c.delete k).2).GoodState := by
  obtain ⟨hsum, hnd⟩ := h
  rw [delete]
  cases hf : c.findEntry k with
  | none => exact ⟨hsum, hnd⟩
  | some e =>
    exact ⟨by rw [hsum, sumBytes_filter_of_find? c.cache k e hnd hf],
      nodup_filter_keys c.cache k hnd⟩

theorem clear_good (c : InMemoryFileCache μ) : (c.clear).GoodState := by
  exact ⟨rfl, List.nodup_nil⟩

theorem applyOp_good (c : InMemoryFileCache μ) (op : Op μ) (h : c.GoodState) :
    (c.applyOp op).GoodState := by
  cases op with
  | set k d md dm => exact set_good c k d md dm h
  | get k => exact get_good c k h
  | getMetadata k => rw [applyOp, get_metadata_state]; exact h
  | listKeys => exact h
  | delete k => exact delete_good c k h
  | clear => exact clear_good c

theorem init_good (mi mb : Nat) : (init mi mb : InMemoryFileCache μ).GoodState :=
  ⟨rfl, List.nodup_nil⟩

theorem foldl_applyOp_good (c : InMemoryFileCache μ) (ops : List (Op μ))
    (h : c.GoodState) : (ops.foldl applyOp c).GoodState := by
  induction ops generalizing c with
  | nil => exact h
  | cons op rest ih => exact ih _ (applyOp_good c op h)

/-- An empty dict is never evicted from (regardless of fuel). -/
theorem evictGo_nil (n : Nat) (c : InMemoryFileCache μ) (h : c.cache = []) :
    evictGo n c = c := by
  cases n with
  | zero => rfl
  | succ n =>
    rw [evictGo]
    by_cases hc : c.evictCond
    · rw [if_pos hc]
      obtain ⟨mi, mb, cb, entries⟩ := c
      simp only [] at h
      subst h
      rfl
    · rw [if_neg hc]

/-- When the loop condition is already false, eviction does nothing. -/
theorem evict_noop (c : InMemoryFileCache μ) (h : ¬c.evictCond) :
    c.evict_if_needed = c := by
  rw [evict_if_needed]
  cases hn : c.cache.length with
  | zero => rfl
  | succ n => rw [evictGo, if_neg h]

/-- When the loop condition holds, eviction removes exactly the first
(least-recently-used) entry and continues. -/
theorem evict_step (c : InMemoryFileCache μ) (e : String × List Nat × μ)
    (rest : List (String × List Nat × μ)) (hc : c.evictCond) (h : c.cache = e :: rest) :
    c.evict_if_needed =
      evict_if_needed { c with cache := rest, current_bytes := c.current_bytes - e.2.1.length } := by
  obtain ⟨mi, mb, cb, entries⟩ := c
  simp only [] at h
  subst h
  rw [evict_if_needed, evict_if_needed]
  simp only [List.length_cons]
  rw [evictGo, if_pos hc]

/-- Source `set` of a fresh key: no old entry is removed. -/
theorem setPre_fresh (c : InMemoryFileCache μ) (k : String) (d : List Nat) (m : μ)
    (h : k ∉ c.cache.map (fun e => e.1)) :
    c.setPre k d m =
      { c with cache := c.cache ++ [(k, d, m)],
               current_bytes := c.current_bytes + d.length } := by
  have hf : c.findEntry k = none := by
    rw [findEntry]
    refine List.find?_eq_none.mpr fun x hx => ?_
    simp only [Bool.not_eq_true, beq_eq_false_iff_ne]
    intro hxk
    exact h (List.mem_map.mpr ⟨x, hx, hxk⟩)
  rw [setPre, hf]

theorem set_max_fields (c : InMemoryFileCache μ) (k : String) (d : List Nat)
    (md : Option μ) (dm : μ) :
    (c.set k d md dm).max_items = c.max_items ∧
      (c.set k d md dm).max_bytes = c.max_bytes := by
  rw [set]
  have h1 := evict_if_needed_max_fields (c.setPre k d (md.getD dm))
  have h2 := setPre_max_fields c k d (md.getD dm)
  rw [evict_if_needed] at h1
  exact ⟨h1.1.trans h2.1, h1.2.trans h2.2⟩

theorem doSet_good (c : InMemoryFileCache μ) (sc : SetCall μ) (h : c.GoodState) :
    (c.doSet sc).GoodState :=
  set_good c sc.key sc.data sc.metadata sc.defaultMeta h

theorem foldl_doSet_good (c : InMemoryFileCache μ) (calls : List (SetCall μ))
    (h : c.GoodState) : (calls.foldl doSet c).GoodState := by
  induction calls generalizing c with
  | nil => exact h
  | cons sc rest ih => exact ih _ (doSet_good c sc h)

theorem foldl_doSet_max_fields (c : InMemoryFileCache μ) (calls : List (SetCall μ)) :
    (calls.foldl doSet c).max_items = c.max_items ∧
      (calls.foldl doSet c).max_bytes = c.max_bytes := by
  induction calls generalizing c with
  | nil => exact ⟨rfl, rfl⟩
  | cons sc rest ih =>
    have h1 := ih (c.doSet sc)
    have h2 := set_max_fields c sc.key sc.data sc.metadata sc.defaultMeta
    exact ⟨h1.1.trans h2.1, h1.2.trans h2.2⟩

end InMemoryFileCache

/-! ### Claim theorems: the cache -/

/-- Claim C2. For every sequence of `set` calls on the cache, after each call
(i.e. after folding any such sequence from a fresh cache) the entry count
is at most `max_items` and the total stored bytes at most `max_bytes`.
The claim permits an exception immediately after a single oversized
insert, but the code needs none: `_evict_if_needed` evicts the sole
oversized entry itself, so the bounds hold unconditionally (this makes the
weaker claim true a fortiori). -/
theorem c2_eviction_invariant (max_items max_bytes : Nat)
    (calls : List (InMemoryFileCache.SetCall Nat)) :
    (calls.foldl InMemoryFileCache.doSet (InMemoryFileCache.init max_items max_bytes)).cache.length
        ≤ max_items ∧
      (calls.foldl InMemoryFileCache.doSet
          (InMemoryFileCache.init max_items max_bytes)).current_bytes ≤ (max_bytes : Int) := by
  induction calls using List.reverseRecOn with
  | nil =>
    constructor
    · exact Nat.le_refl 0 |>.trans (Nat.zero_le _)
    · exact Int.natCast_nonneg _
  | append_singleton l sc ih =>
    rw [List.foldl_append, List.foldl_cons, List.foldl_nil]
    set c := l.foldl InMemoryFileCache.doSet (InMemoryFileCache.init max_items max_bytes) with hc
    have hgood : c.GoodState :=
      InMemoryFileCache.foldl_doSet_good _ l (InMemoryFileCache.init_good max_items max_bytes)
    have hfields := InMemoryFileCache.foldl_doSet_max_fields
      (InMemoryFileCache.init max_items max_bytes) l
    have hb := InMemoryFileCache.set_bounds c sc.key sc.data sc.metadata sc.defaultMeta hgood
    rw [← hc] at hfields
    have hmi : c.max_items = max_items := hfields.1.trans rfl
    have hmb : c.max_bytes = max_bytes := hfields.2.trans rfl
    exact ⟨hmi ▸ hb.1, hmb ▸ hb.2⟩

/-- Claim C3. For every interleaved sequence of cache operations (`set`,
`get`, `get_metadata`, `list_keys`, `delete`, `clear`, with the evictions
`set` triggers), the running byte counter equals the exact sum of
`len(data)` over the live entries. -/
theorem c3_byte_accounting (max_items max_bytes : Nat)
    (ops : List (InMemoryFileCache.Op Nat)) :
    (ops.foldl InMemoryFileCache.applyOp
        (InMemoryFileCache.init max_items max_bytes)).current_bytes =
      InMemoryFileCache.sumBytes
        (ops.foldl InMemoryFileCache.applyOp
          (InMemoryFileCache.init max_items max_bytes)).cache :=
  (InMemoryFileCache.foldl_applyOp_good _ ops
    (InMemoryFileCache.init_good max_items max_bytes)).1

/-- Claim C1. (counterexample) Inserting a single 11-byte item into an empty
cache with `max_bytes = 10` does NOT retain it: `_evict_if_needed` pops the
least-recently-used entry while `current_bytes > max_bytes`, and with one
entry that entry is the just-inserted one, so a subsequent `get` misses and
the cache is empty — refuting retain-until-next-insert. -/
theorem c1_counterexample :
    ((((InMemoryFileCache.init 50 10 : InMemoryFileCache Nat).set "k"
        (List.replicate 11 0) none 0).get "k").1 = none) ∧
      (((InMemoryFileCache.init 50 10 : InMemoryFileCache Nat).set "k"
        (List.replicate 11 0) none 0).cache = []) := by
  decide

/-- Claim C1. (amended) If the data size of a single inserted item alone exceeds
`max_bytes` and it is the only entry, the insertion itself evicts the
just-inserted entry: the cache is left empty with a zero byte count, and a
subsequent `get` of its key returns absent. -/
theorem c1_oversized_sole_insert_evicted (max_items max_bytes : Nat) (key : String)
    (data : List Nat) (metadata : Option Nat) (defaultMeta : Nat)
    (h : max_bytes < data.length) :
    (((InMemoryFileCache.init max_items max_bytes).set key data metadata defaultMeta).cache
        = []) ∧
      ((((InMemoryFileCache.init max_items max_bytes).set key data metadata
          defaultMeta).get key).1 = none) ∧
      (((InMemoryFileCache.init max_items max_bytes).set key data metadata
          defaultMeta).current_bytes = 0) := by
  have hs : ((InMemoryFileCache.init max_items max_bytes : InMemoryFileCache Nat).set key data
      metadata defaultMeta) = ⟨max_items, max_bytes, (data.length : Int) - data.length, []⟩ := by
    rw [InMemoryFileCache.set,
      InMemoryFileCache.setPre_fresh _ _ _ _ (by simp [InMemoryFileCache.init])]
    rw [InMemoryFileCache.evict_step _ (key, data, metadata.getD defaultMeta) [] ?hcond rfl]
    case hcond =>
      refine Or.inr ?_
      show (InMemoryFileCache.init max_items max_bytes :
        InMemoryFileCache Nat).current_bytes + (data.length : Int) > _
      simp [InMemoryFileCache.init]
      exact_mod_cast h
    rw [InMemoryFileCache.evict_noop]
    · simp [InMemoryFileCache.init]
    · rintro (hlen | hbytes)
      · simp [InMemoryFileCache.init] at hlen
      · simp [InMemoryFileCache.init] at hbytes
        omega
  refine ⟨by rw [hs], ?_, by rw [hs]; simp⟩
  rw [hs]
  rfl

/-- Claim C1. (witness for the amended theorem at a concrete input). -/
theorem c1_witness :
    (((InMemoryFileCache.init 50 10 : InMemoryFileCache Nat).set "k"
        (List.replicate 11 0) none 0).cache = []) ∧
      ((((InMemoryFileCache.init 50 10 : InMemoryFileCache Nat).set "k"
          (List.replicate 11 0) none 0).get "k").1 = none) ∧
      (((InMemoryFileCache.init 50 10 : InMemoryFileCache Nat).set "k"
          (List.replicate 11 0) none 0).current_bytes = 0) :=
  c1_oversized_sole_insert_evicted 50 10 "k" (List.replicate 11 0) none 0 (by decide)

/-- Claim C4. LRU recency discipline: (1) a successful `get` promotes its key
to most-recently-used — the found entry moves to the back of the insertion
order and the key becomes the head of `list_keys` (most-recent first); (2)
`get_metadata` leaves the state, hence the recency order, unchanged; (3)
eviction removes entries only from the least-recently-used end (the
survivors are a suffix of the original order), and one eviction step pops
exactly the least-recently-used entry; (4) inserting distinct keys A, B, C
into an empty cache with `max_items = 2` (total sizes within `max_bytes`,
no intervening `get`) evicts exactly A when C is inserted, leaving the
keys [B, C]. -/
theorem c4_lru_recency_discipline :
    (∀ (c : InMemoryFileCache Nat) (k : String) (e : String × List Nat × Nat),
        c.findEntry k = some e →
          (c.get k).2.cache = c.cache.filter (fun x => !(x.1 == k)) ++ [e] ∧
            (c.get k).2.list_keys.head? = some k) ∧
      (∀ (c : InMemoryFileCache Nat) (k : String), (c.get_metadata k).2 = c) ∧
      (∀ c : InMemoryFileCache Nat, (c.evict_if_needed).cache.IsSuffix c.cache) ∧
      (∀ (c : InMemoryFileCache Nat) (e : String × List Nat × Nat)
          (rest : List (String × List Nat × Nat)),
        c.evictCond → c.cache = e :: rest →
          c.evict_if_needed =
            InMemoryFileCache.evict_if_needed
              { c with cache := rest, current_bytes := c.current_bytes - e.2.1.length }) ∧
      (∀ (max_bytes : Nat) (ka kb kc : String) (da db dc : List Nat)
          (m1 m2 m3 : Option Nat) (t1 t2 t3 : Nat),
        ka ≠ kb → ka ≠ kc → kb ≠ kc →
        da.length + db.length + dc.length ≤ max_bytes →
          ((((InMemoryFileCache.init 2 max_bytes).set ka da m1 t1).set kb db m2 t2).set
              kc dc m3 t3).cache.map (fun e => e.1) = [kb, kc]) := by
  refine ⟨?_, ?_, ?_, ?_, ?_⟩
  · intro c k e hf
    constructor
    · rw [InMemoryFileCache.get, hf]
    · rw [InMemoryFileCache.get, hf]
      have hek : e.1 = k := InMemoryFileCache.findEntry_key c k e hf
      simp [InMemoryFileCache.list_keys, hek]
  · exact fun c k => InMemoryFileCache.get_metadata_state c k
  · exact fun c => InMemoryFileCache.evict_if_needed_suffix c
  · exact fun c e rest hc h => InMemoryFileCache.evict_step c e rest hc h
  · intro max_bytes ka kb kc da db dc m1 m2 m3 t1 t2 t3 h1 h2 h3 hle
    have e1 : (InMemoryFileCache.init 2 max_bytes : InMemoryFileCache Nat).set ka da m1 t1 =
        ⟨2, max_bytes, (da.length : Int), [(ka, da, m1.getD t1)]⟩ := by
      rw [InMemoryFileCache.set,
        InMemoryFileCache.setPre_fresh _ _ _ _ (by simp [InMemoryFileCache.init]),
        InMemoryFileCache.evict_noop]
      · simp [InMemoryFileCache.init]
      · rintro (hlen | hbytes)
        · simp [InMemoryFileCache.init] at hlen
        · simp [InMemoryFileCache.init] at hbytes
          omega
    have e2 : ((InMemoryFileCache.init 2 max_bytes : InMemoryFileCache Nat).set ka da m1 t1).set
        kb db m2 t2 =
        ⟨2, max_bytes, (da.length : Int) + db.length,
          [(ka, da, m1.getD t1), (kb, db, m2.getD t2)]⟩ := by
      rw [e1, InMemoryFileCache.set,
        InMemoryFileCache.setPre_fresh _ _ _ _ (by simp [h1.symm]),
        InMemoryFileCache.evict_noop]
      · simp
      · rintro (hlen | hbytes)
        · simp at hlen
        · simp at hbytes
          omega
    have e3 : (((InMemoryFileCache.init 2 max_bytes : InMemoryFileCache Nat).set ka da m1
        t1).set kb db m2 t2).set kc dc m3 t3 =
        ⟨2, max_bytes, (da.length : Int) + db.length + dc.length - da.length,
          [(kb, db, m2.getD t2), (kc, dc, m3.getD t3)]⟩ := by
      rw [e2, InMemoryFileCache.set,
        InMemoryFileCache.setPre_fresh _ _ _ _ (by simp [h2.symm, h3.symm]),
        InMemoryFileCache.evict_step _ (ka, da, m1.getD t1)
          [(kb, db, m2.getD t2), (kc, dc, m3.getD t3)] (Or.inl (by simp)) rfl,
        InMemoryFileCache.evict_noop]
      rintro (hlen | hbytes)
      · simp at hlen
      · simp at hbytes
        omega
    rw [e3]
    simp

/-- Claim C4. (witness at concrete inputs). -/
theorem c4_witness :
    ((((InMemoryFileCache.init 5 100 : InMemoryFileCache Nat).set "x" [7] none 0).get
        "x").2.cache =
      (((InMemoryFileCache.init 5 100 : InMemoryFileCache Nat).set "x" [7]
        none 0).cache.filter (fun e => !(e.1 == "x"))) ++ [("x", [7], 0)]) ∧
      ((((InMemoryFileCache.init 2 100 : InMemoryFileCache Nat).set "a" [0] none 0).set "b"
          [0, 1] none 0).set "c" [0] none 0).cache.map (fun e => e.1) = ["b", "c"] := by
  have h := c4_lru_recency_discipline
  refine ⟨?_, ?_⟩
  · exact (h.1 ((InMemoryFileCache.init 5 100 : InMemoryFileCache Nat).set "x" [7] none 0)
      "x" ("x", [7], 0) (by decide)).1
  · exact h.2.2.2.2 100 "a" "b" "c" [0] [0, 1] [0] none none none 0 0 0
      (by decide) (by decide) (by decide) (by decide)

/-! ### Claim theorems: the geometry engine and normalizer -/

/-- Claim C5. (counterexample) A door element with the unknown position value
`"middle"` in a 12 by 10 room is NOT placed on the north wall: it falls
into the catch-all south/back branch and is drawn on the south wall
(`y = 0`), which differs from the north-wall rendering. -/
theorem c5_counterexample :
    (add_element_to_drawing ⟨some "door", some "middle",
        some ⟨some (.num 3), some (.num 7)⟩⟩ 12 10 =
      .ok [.line (9 / 2, 0) (15 / 2, 0),
           .arc (15 / 2, 0) 3 90 180,
           .text "DOOR" (1 / 2) (6, 1) 0 0 0]) ∧
      add_element_to_drawing ⟨some "door", some "middle",
          some ⟨some (.num 3), some (.num 7)⟩⟩ 12 10 ≠
        add_element_to_drawing ⟨some "door", some "north",
          some ⟨some (.num 3), some (.num 7)⟩⟩ 12 10 := by
  have hs : add_element_to_drawing ⟨some "door", some "middle",
      some ⟨some (.num 3), some (.num 7)⟩⟩ 12 10 =
      .ok [.line (9 / 2, 0) (15 / 2, 0),
           .arc (15 / 2, 0) 3 90 180,
           .text "DOOR" (1 / 2) (6, 1) 0 0 0] := by
    simp +decide [add_element_to_drawing, elementWidthOf, pyFloat, pure, Except.pure,
      bind, Except.bind]
    norm_num
  have hn : add_element_to_drawing ⟨some "door", some "north",
      some ⟨some (.num 3), some (.num 7)⟩⟩ 12 10 =
      .ok [.line (9 / 2, 10) (15 / 2, 10),
           .arc (9 / 2, 10) 3 270 360,
           .text "DOOR" (1 / 2) (6, 9) 0 0 0] := by
    simp +decide [add_element_to_drawing, elementWidthOf, pyFloat, pure, Except.pure,
      bind, Except.bind]
    norm_num
  refine ⟨hs, ?_⟩
  rw [hs, hn]
  intro hcontra
  have h2 := (List.cons.injEq _ _ _ _ ▸ Except.ok.injEq _ _ ▸ hcontra)
  simp only [Except.ok.injEq, List.cons.injEq] at hcontra
  have hline := hcontra.1
  rw [Primitive.line.injEq, Prod.ext_iff, Prod.ext_iff] at hline
  have h0 : (0 : ℚ) = 10 := hline.1.2
  norm_num at h0

/-- Claim C5. (amended) A missing `position` key defaults to north (the
element renders exactly as if the position were `"north"`); an *unknown*
position value sends a door to the catch-all south/back branch (south
wall) and makes a window emit no primitives; an element with an unknown
kind value and a resolvable width produces no primitives and raises no
error. -/
theorem c5_position_and_kind_handling :
    (∀ (t : Option String) (s : Option LooseSize) (L W : ℚ),
        add_element_to_drawing ⟨t, none, s⟩ L W =
          add_element_to_drawing ⟨t, some "north", s⟩ L W) ∧
      (∀ (pos : String) (s : Option LooseSize) (L W q : ℚ),
        elementWidthOf ⟨some "door", some pos, s⟩ = .ok q →
        pos ∉ (["east", "right", "west", "left", "north", "front"] : List String) →
          add_element_to_drawing ⟨some "door", some pos, s⟩ L W =
            .ok [.line (L / 2 - q / 2, 0) (L / 2 - q / 2 + q, 0),
                 .arc (L / 2 - q / 2 + q, 0) q 90 180,
                 .text "DOOR" (1 / 2) (L / 2 - q / 2 + q / 2, 1) 0 0 0]) ∧
      (∀ (pos : String) (s : Option LooseSize) (L W q : ℚ),
        elementWidthOf ⟨some "window", some pos, s⟩ = .ok q →
        pos ∉ (["north", "front", "south", "back", "east", "right", "west", "left"] :
          List String) →
          add_element_to_drawing ⟨some "window", some pos, s⟩ L W = .ok []) ∧
      (∀ (t : String) (pos : Option String) (s : Option LooseSize) (L W q : ℚ),
        elementWidthOf ⟨some t, pos, s⟩ = .ok q →
        t ≠ "door" → t ≠ "window" →
          add_element_to_drawing ⟨some t, pos, s⟩ L W = .ok []) := by
  refine ⟨?_, ?_, ?_, ?_⟩
  · intro t s L W
    rfl
  · intro pos s L W q hw hpos
    simp only [List.mem_cons, List.not_mem_nil, or_false, not_or] at hpos
    obtain ⟨he, hr, hwst, hl, hn, hf⟩ := hpos
    simp [add_element_to_drawing, bind, Except.bind, pure, Except.pure, hw, he, hr, hwst,
      hl, hn, hf]
  · intro pos s L W q hw hpos
    simp only [List.mem_cons, List.not_mem_nil, or_false, not_or] at hpos
    obtain ⟨hn, hf, hs, hb, he, hr, hwst, hl⟩ := hpos
    simp [add_element_to_drawing, bind, Except.bind, pure, Except.pure, hw, hn, hf, hs, hb,
      he, hr, hwst, hl]
  · intro t pos s L W q hw ht1 ht2
    simp [add_element_to_drawing, bind, Except.bind, pure, Except.pure, hw, ht1, ht2]

/-- Claim C5. (witness for the amended theorem at concrete inputs). -/
theorem c5_witness :
    (add_element_to_drawing ⟨some "door", none, some ⟨some (.num 3), some (.num 7)⟩⟩ 12 10 =
        add_element_to_drawing ⟨some "door", some "north",
          some ⟨some (.num 3), some (.num 7)⟩⟩ 12 10) ∧
      (add_element_to_drawing ⟨some "window", some "middle",
          some ⟨some (.num 3), some (.num 7)⟩⟩ 12 10 = .ok []) ∧
      (add_element_to_drawing ⟨some "fixture", some "north",
          some ⟨some (.num 3), some (.num 7)⟩⟩ 12 10 = .ok []) := by
  have h := c5_position_and_kind_handling
  refine ⟨h.1 (some "door") (some ⟨some (.num 3), some (.num 7)⟩) 12 10, ?_, ?_⟩
  · exact h.2.2.1 "middle" (some ⟨some (.num 3), some (.num 7)⟩) 12 10 3 rfl (by decide)
  · exact h.2.2.2 "fixture" (some "north") (some ⟨some (.num 3), some (.num 7)⟩) 12 10 3
      rfl (by decide) (by decide)

/-- Claim C6. Door geometry.  (1) Rendering a 12 by 10 room with a single
door at position east of width 3 yields exactly the boundary, the centered
label, the opening line from `(12, 3.5)` to `(12, 6.5)`, the swing arc
centered at `(12, 3.5)` with radius 3 from 180 to 270 degrees, and the
door label.  (2–5) The full per-wall arc rule: east centers the arc at the
near corner of the opening with angles 180 to 270; west at the far corner
with 0 to 90; north at the near corner with 270 to 360; south at the far
corner with 90 to 180.  (6) The renderer is a pure function, so repeated
calls with identical input yield identical output. -/
theorem c6_door_arc_rules :
    (generate_dwg ⟨some "room", some ⟨some (.num 12), some (.num 10), none⟩,
        [⟨some "door", some "east", some ⟨some (.num 3), some (.num 7)⟩⟩]⟩ =
      .ok [boundaryOf 12 10,
           roomLabelOf ⟨some "room", some ⟨some (.num 12), some (.num 10), none⟩,
             [⟨some "door", some "east", some ⟨some (.num 3), some (.num 7)⟩⟩]⟩ 12 10,
           .line (12, 7 / 2) (12, 13 / 2),
           .arc (12, 7 / 2) 3 180 270,
           .text "DOOR" (1 / 2) (11, 5) 0 0 0]) ∧
      (∀ (s : Option LooseSize) (L W q : ℚ),
        elementWidthOf ⟨some "door", some "east", s⟩ = .ok q →
          add_element_to_drawing ⟨some "door", some "east", s⟩ L W =
            .ok [.line (L, W / 2 - q / 2) (L, W / 2 - q / 2 + q),
                 .arc (L, W / 2 - q / 2) q 180 270,
                 .text "DOOR" (1 / 2) (L - 1, W / 2 - q / 2 + q / 2) 0 0 0]) ∧
      (∀ (s : Option LooseSize) (L W q : ℚ),
        elementWidthOf ⟨some "door", some "west", s⟩ = .ok q →
          add_element_to_drawing ⟨some "door", some "west", s⟩ L W =
            .ok [.line (0, W / 2 - q / 2) (0, W / 2 - q / 2 + q),
                 .arc (0, W / 2 - q / 2 + q) q 0 90,
                 .text "DOOR" (1 / 2) (1, W / 2 - q / 2 + q / 2) 0 0 0]) ∧
      (∀ (s : Option LooseSize) (L W q : ℚ),
        elementWidthOf ⟨some "door", some "north", s⟩ = .ok q →
          add_element_to_drawing ⟨some "door", some "north", s⟩ L W =
            .ok [.line (L / 2 - q / 2, W) (L / 2 - q / 2 + q, W),
                 .arc (L / 2 - q / 2, W) q 270 360,
                 .text "DOOR" (1 / 2) (L / 2 - q / 2 + q / 2, W - 1) 0 0 0]) ∧
      (∀ (s : Option LooseSize) (L W q : ℚ),
        elementWidthOf ⟨some "door", some "south", s⟩ = .ok q →
          add_element_to_drawing ⟨some "door", some "south", s⟩ L W =
            .ok [.line (L / 2 - q / 2, 0) (L / 2 - q / 2 + q, 0),
                 .arc (L / 2 - q / 2 + q, 0) q 90 180,
                 .text "DOOR" (1 / 2) (L / 2 - q / 2 + q / 2, 1) 0 0 0]) ∧
      (∀ p : LooseParams, generate_dwg p = generate_dwg p) := by
  refine ⟨?_, ?_, ?_, ?_, ?_, fun _ => rfl⟩
  · simp +decide [generate_dwg, ensure_dimensions, chosenDefaults, normRoomType, pyOrStr,
      pyLower, parse_number, dimension_defaults, bind, Except.bind, pure, Except.pure,
      add_element_to_drawing, elementWidthOf, pyFloat]
    norm_num
  · intro s L W q hw
    simp [add_element_to_drawing, bind, Except.bind, pure, Except.pure, hw]
  · intro s L W q hw
    simp +decide [add_element_to_drawing, bind, Except.bind, pure, Except.pure, hw]
  · intro s L W q hw
    simp +decide [add_element_to_drawing, bind, Except.bind, pure, Except.pure, hw]
  · intro s L W q hw
    simp +decide [add_element_to_drawing, bind, Except.bind, pure, Except.pure, hw]

/-- Claim C6. (witness: the per-wall rules applied at concrete inputs). -/
theorem c6_witness :
    add_element_to_drawing ⟨some "door", some "west",
        some ⟨some (.num 2), some (.num 7)⟩⟩ 12 10 =
      .ok [.line (0, 10 / 2 - 2 / 2) (0, 10 / 2 - 2 / 2 + 2),
           .arc (0, 10 / 2 - 2 / 2 + 2) 2 0 90,
           .text "DOOR" (1 / 2) (1, 10 / 2 - 2 / 2 + 2 / 2) 0 0 0] :=
  c6_door_arc_rules.2.2.1 (some ⟨some (.num 2), some (.num 7)⟩) 12 10 2 rfl

/-- Python `x or d` is never empty when the fallback is not. -/
theorem pyOrStr_ne_empty (v : Option String) (d : String) (hd : d ≠ "") :
    pyOrStr v d ≠ "" := by
  cases v with
  | none => exact hd
  | some s => by_cases h : s = "" <;> simp [pyOrStr, h, hd]

/-- Every default in the room-type table is positive on both axes. -/
theorem chosenDefaults_pos (p : LooseParams) :
    0 < (chosenDefaults p).1 ∧ 0 < (chosenDefaults p).2.1 := by
  unfold chosenDefaults dimension_defaults
  split_ifs <;> norm_num

/-- Claim C7. Normalization defaults and parsing:
`normalize({room_type:"kitchen"})` yields length 12, width 10, unit
`"feet"`; the string `"15 ft"` parses to 15 by extracting the first signed
decimal number; an absent width together with an explicit length gives a
mixed explicit/defaulted result; in general each unparsable or absent axis
is independently replaced by the room-type default for that axis; unknown
room types fall back to the generic 10 by 10 feet default. -/
theorem c7_normalization_defaults :
    (ensure_dimensions ⟨some "kitchen", none, []⟩ = .ok ⟨12, 10, "feet"⟩) ∧
      (parse_number (.str "15 ft") = some 15) ∧
      (ensure_dimensions ⟨none, some ⟨some (.str "15 ft"), none, none⟩, []⟩ =
        .ok ⟨15, 10, "feet"⟩) ∧
      (∀ (p : LooseParams) (dims : LooseDims) (l : ℚ),
        p.dimensions = some dims →
        parse_number (dims.length.getD .noneV) = some l →
        parse_number (dims.width.getD .noneV) = none →
        0 < l →
          ensure_dimensions p =
            .ok ⟨l, (chosenDefaults p).2.1, pyOrStr dims.unit "feet"⟩) ∧
      (∀ (p : LooseParams) (dims : LooseDims) (w : ℚ),
        p.dimensions = some dims →
        parse_number (dims.length.getD .noneV) = none →
        parse_number (dims.width.getD .noneV) = some w →
        0 < w →
          ensure_dimensions p =
            .ok ⟨(chosenDefaults p).1, w, pyOrStr dims.unit "feet"⟩) ∧
      (∀ rt : String, dimension_defaults (normRoomType ⟨some rt, none, []⟩) = none →
        ensure_dimensions ⟨some rt, none, []⟩ = .ok ⟨10, 10, "feet"⟩) := by
  refine ⟨?_, ?_, ?_, ?_, ?_, ?_⟩
  · simp +decide [ensure_dimensions, chosenDefaults, normRoomType, pyOrStr, pyLower,
      parse_number, dimension_defaults]
  · simp +decide [parse_number, searchNum, matchNumAt, decVal, digitsNat]
  · simp +decide [ensure_dimensions, chosenDefaults, normRoomType, pyOrStr, pyLower,
      parse_number, dimension_defaults, searchNum, matchNumAt, decVal, digitsNat]
  · intro p dims l hdims hl hw hlpos
    have hunit := pyOrStr_ne_empty dims.unit "feet" (by decide)
    have hpos := (chosenDefaults_pos p).2
    simp only [ensure_dimensions, hdims, Option.getD_some, hl, hw]
    simp only [Option.isNone_some, Option.isNone_none, Bool.or_true, if_true,
      Option.getD_some, Option.getD_none]
    rw [if_neg hunit, if_neg]
    push_neg
    exact ⟨by linarith, by linarith⟩
  · intro p dims w hdims hl hw hwpos
    have hunit := pyOrStr_ne_empty dims.unit "feet" (by decide)
    have hpos := (chosenDefaults_pos p).1
    simp only [ensure_dimensions, hdims, Option.getD_some, hl, hw]
    simp only [Option.isNone_some, Option.isNone_none, Bool.true_or, if_true,
      Option.getD_some, Option.getD_none]
    rw [if_neg hunit, if_neg]
    push_neg
    exact ⟨by linarith, by linarith⟩
  · intro rt hrt
    have hch : chosenDefaults ⟨some rt, none, []⟩ = (10, 10, "feet") := by
      rw [chosenDefaults, hrt]
      rfl
    simp only [ensure_dimensions, hch]
    norm_num [pyOrStr, parse_number]

/-- Claim C7. (witness: the general per-axis clauses at concrete inputs). -/
theorem c7_witness :
    (ensure_dimensions ⟨some "office", some ⟨some (.str "15 ft"), none, none⟩, []⟩ =
      .ok ⟨15, (chosenDefaults ⟨some "office",
        some ⟨some (.str "15 ft"), none, none⟩, []⟩).2.1, pyOrStr none "feet"⟩) ∧
      (ensure_dimensions ⟨some "garage", none, []⟩ = .ok ⟨10, 10, "feet"⟩) := by
  have h := c7_normalization_defaults
  constructor
  · exact h.2.2.2.1 ⟨some "office", some ⟨some (.str "15 ft"), none, none⟩, []⟩
      ⟨some (.str "15 ft"), none, none⟩ 15
      rfl
      (by simp +decide [parse_number, searchNum, matchNumAt, decVal, digitsNat])
      rfl
      (by norm_num)
  · exact h.2.2.2.2.2 "garage"
      (by simp +decide [normRoomType, pyLower, pyOrStr, dimension_defaults])

/-- Claim C8. Normalization fails with the invalid-dimensions error exactly
when the resolved (parsed-or-defaulted) length or width is non-positive;
on success the returned room spec has positive length and width, and they
are exactly the resolved values. -/
theorem c8_invalid_dimensions_iff (p : LooseParams) :
    ((∃ msg, ensure_dimensions p = .error msg) ↔
      (resolvedLength p ≤ 0 ∨ resolvedWidth p ≤ 0)) ∧
      (∀ d : RoomDims, ensure_dimensions p = .ok d →
        0 < d.length ∧ 0 < d.width ∧
          d.length = resolvedLength p ∧ d.width = resolvedWidth p) := by
  have hcond : (resolvedLength p ≤ 0 ∨ resolvedWidth p ≤ 0) ∨
      ¬(resolvedLength p ≤ 0 ∨ resolvedWidth p ≤ 0) := em _
  have hL : (parse_number ((p.dimensions.getD ⟨none, none, none⟩).length.getD .noneV)).getD
      (chosenDefaults p).1 = resolvedLength p := rfl
  have hW : (parse_number ((p.dimensions.getD ⟨none, none, none⟩).width.getD .noneV)).getD
      (chosenDefaults p).2.1 = resolvedWidth p := rfl
  simp only [ensure_dimensions, hL, hW]
  rcases hcond with hc | hc
  · rw [if_pos hc]
    refine ⟨⟨fun _ => hc, fun _ => ⟨_, rfl⟩⟩, ?_⟩
    intro d hd
    exact absurd hd (by simp)
  · rw [if_neg hc]
    push_neg at hc
    refine ⟨⟨?_, fun hr => absurd hr (by push_neg; exact hc)⟩, ?_⟩
    · rintro ⟨msg, hmsg⟩
      exact absurd hmsg (by simp)
    · intro d hd
      injection hd with hx
      rw [← hx]
      exact ⟨hc.1, hc.2, rfl, rfl⟩

/-- Claim C8. (witness: a negative explicit length is rejected, a positive
bag is accepted with positive axes). -/
theorem c8_witness :
    (∃ msg, ensure_dimensions ⟨some "kitchen",
        some ⟨some (.num (-5)), none, none⟩, []⟩ = .error msg) ∧
      (0 : ℚ) < 12 := by
  constructor
  · refine (c8_invalid_dimensions_iff
      ⟨some "kitchen", some ⟨some (.num (-5)), none, none⟩, []⟩).1.mpr ?_
    left
    show (Option.getD (parse_number (PyVal.num (-5))) _ ≤ 0)
    norm_num [parse_number]
  · norm_num

/-- Claim C9. Element-granularity failure containment: whenever the parameter bag
normalizes, generation succeeds (no element can make it raise), and the
output contains the room boundary polyline, the centered room label, and
every primitive of every element whose own rendering succeeds — a
malformed element is skipped without affecting the rest. -/
theorem c9_element_failure_is_local (p : LooseParams) (d : RoomDims)
    (hd : ensure_dimensions p = .ok d) :
    ∃ l, generate_dwg p = .ok l ∧
      boundaryOf d.length d.width ∈ l ∧
      roomLabelOf p d.length d.width ∈ l ∧
      ∀ e ∈ p.elements, ∀ ps, add_element_to_drawing e d.length d.width = .ok ps →
        ∀ x ∈ ps, x ∈ l := by
  refine ⟨boundaryOf d.length d.width :: roomLabelOf p d.length d.width ::
      (p.elements.map (fun e =>
        match add_element_to_drawing e d.length d.width with
        | .ok ps => ps
        | .error _ => [])).flatten, ?_, ?_, ?_, ?_⟩
  · simp [generate_dwg, hd, bind, Except.bind, pure, Except.pure]
  · exact List.mem_cons_self _ _
  · exact List.mem_cons_of_mem _ (List.mem_cons_self _ _)
  · intro e he ps hps x hx
    refine List.mem_cons_of_mem _ (List.mem_cons_of_mem _ ?_)
    rw [List.mem_flatten]
    refine ⟨ps, List.mem_map.mpr ⟨e, he, ?_⟩, hx⟩
    rw [hps]

/-- Claim C9. (witness: a mixed list with one unparsable-size element still
yields the boundary, the label and the primitives of the good door). -/
theorem c9_witness :
    ∃ l, generate_dwg ⟨some "room", some ⟨some (.num 12), some (.num 10), none⟩,
        [⟨some "door", some "east", some ⟨some (.num 3), some (.num 7)⟩⟩,
         ⟨some "window", some "north", some ⟨some (.str "abc"), none⟩⟩]⟩ = .ok l ∧
      boundaryOf 12 10 ∈ l ∧
      roomLabelOf ⟨some "room", some ⟨some (.num 12), some (.num 10), none⟩,
        [⟨some "door", some "east", some ⟨some (.num 3), some (.num 7)⟩⟩,
         ⟨some "window", some "north", some ⟨some (.str "abc"), none⟩⟩]⟩ 12 10 ∈ l := by
  have h := c9_element_failure_is_local
    ⟨some "room", some ⟨some (.num 12), some (.num 10), none⟩,
      [⟨some "door", some "east", some ⟨some (.num 3), some (.num 7)⟩⟩,
       ⟨some "window", some "north", some ⟨some (.str "abc"), none⟩⟩]⟩
    ⟨12, 10, "feet"⟩
    (by simp +decide [ensure_dimensions, chosenDefaults, normRoomType, pyOrStr, pyLower,
      parse_number, dimension_defaults])
  rcases h with ⟨l, h1, h2, h3, _⟩
  exact ⟨l, h1, h2, h3⟩

/-- Claim C10. A door or window element whose `size` field is entirely absent
is not skipped: the engine substitutes the default size (width 3,
height 1) and renders it exactly as with that size, always succeeding;
an element whose `size` is present is skipped precisely when the stored
width is missing or not convertible to a number (which is what
`elementWidthOf` succeeding means). -/
theorem c10_missing_size_defaults (t : String) (pos : Option String) (L W : ℚ)
    (ht : t = "door" ∨ t = "window") :
    (add_element_to_drawing ⟨some t, pos, none⟩ L W =
        add_element_to_drawing ⟨some t, pos, some ⟨some (.num 3), some (.num 1)⟩⟩ L W) ∧
      (∃ ps, add_element_to_drawing ⟨some t, pos, none⟩ L W = .ok ps) ∧
      (∀ sz : LooseSize,
        ((∃ ps, add_element_to_drawing ⟨some t, pos, some sz⟩ L W = .ok ps) ↔
          (∃ q, elementWidthOf ⟨some t, pos, some sz⟩ = .ok q))) := by
  refine ⟨rfl, ?_, ?_⟩
  · have hwd : elementWidthOf ⟨some t, pos, none⟩ = .ok 3 := rfl
    rcases ht with h | h <;> subst h <;>
      simp only [add_element_to_drawing, bind, Except.bind, hwd] <;>
      split_ifs <;> exact ⟨_, rfl⟩
  · intro sz
    constructor
    · rintro ⟨ps, hps⟩
      cases hw : elementWidthOf ⟨some t, pos, some sz⟩ with
      | error e =>
        rcases ht with h | h <;> subst h <;>
          simp only [add_element_to_drawing, bind, Except.bind, hw] at hps <;>
          exact absurd hps (by simp)
      | ok q => exact ⟨q, rfl⟩
    · rintro ⟨q, hq⟩
      rcases ht with h | h <;> subst h <;>
        simp only [add_element_to_drawing, bind, Except.bind, hq] <;>
        split_ifs <;> exact ⟨_, rfl⟩

/-- Claim C10. (witness: a door with no size renders with width 3; a door
with a size dict whose width is unparsable is skipped). -/
theorem c10_witness :
    (add_element_to_drawing ⟨some "door", some "east", none⟩ 12 10 =
        add_element_to_drawing ⟨some "door", some "east",
          some ⟨some (.num 3), some (.num 1)⟩⟩ 12 10) ∧
      ((∃ ps, add_element_to_drawing ⟨some "door", some "east",
          some ⟨some (.str "abc"), none⟩⟩ 12 10 = .ok ps) ↔
        (∃ q, elementWidthOf ⟨some "door", some "east",
          some ⟨some (.str "abc"), none⟩⟩ = .ok q)) :=
  ⟨(c10_missing_size_defaults "door" (some "east") 12 10 (Or.inl rfl)).1,
   (c10_missing_size_defaults "door" (some "east") 12 10 (Or.inl rfl)).2.2
     ⟨some (.str "abc"), none⟩⟩


